import Mathlib

/-!
gorm-ora: the Oracle migrator (`migrator.go`).

A shallow embedding of `Migrator` from `migrator.go` and proofs about it.

* A Go `string` is a sequence of bytes: `GoString := List Nat`, one number below 256 per byte.
* `int64` values read from the catalog are `Int`.
* The database and the gorm library are a `Backend`: the outcome of every call the file makes
  into them is a field of that record, and every statement handed to `Exec` is logged.
-/

set_option autoImplicit false

namespace Oracle

/-! ## Go strings -/

/-- A Go string: its bytes, in order. -/
abbrev GoString := List Nat

/-- The bytes (UTF-8) of a string literal. -/
def go (s : String) : GoString :=
  (s.data.flatMap String.utf8EncodeChar).map UInt8.toNat

/-- The byte of `'\''`. -/
def squote : Nat := 39

/-- The byte of `'\\'`. -/
def backslash : Nat := 92

/-- The byte of `'"'`. -/
def dquote : Nat := 34

/-- The Go slice expression `s[lo:hi]`. -/
def slice (s : GoString) (lo hi : Nat) : GoString :=
  (s.take hi).drop lo

/-! ## `ColumnTypes`: unwrapping the default literal (lines 333-339) -/

/-- The condition of the `for` loop at lines 335-336:
`(len(s) >= 3 && s[0] == '\'' && s[len(s)-1] == '\'' && s[len(s)-2] != '\\') ||
 (len(s) == 2 && s == "''")`. -/
def unwrapCond (s : GoString) : Bool :=
  (decide (s.length ≥ 3) && decide (s[0]? = some squote)
      && decide (s[s.length - 1]? = some squote)
      && !decide (s[s.length - 2]? = some backslash))
    || (decide (s.length = 2) && decide (s = [squote, squote]))

/-- The body of the loop, line 337: `s = s[1 : len(s)-1]`. -/
def unwrapStep (s : GoString) : GoString :=
  slice s 1 (s.length - 1)

/-- The loop of lines 335-338, run for at most `fuel` iterations. -/
def unwrapLoop : Nat → GoString → GoString
  | 0, s => s
  | fuel + 1, s => if unwrapCond s then unwrapLoop fuel (unwrapStep s) else s

/-- Lines 334-339: the loop started with `len(s)` iterations of fuel; every iteration removes two
bytes, so the loop has stopped by then (`unwrapCond_unwrap`). -/
def unwrap (s : GoString) : GoString :=
  unwrapLoop s.length s

/-! ## `strings.ToLower` and `strings.ReplaceAll` -/

/-- A byte below `utf8.RuneSelf` in every position. -/
def isASCII (s : GoString) : Bool :=
  s.all (fun c => decide (c < 128))

/-- The ASCII branch of `strings.ToLower` on one byte: `'A'..'Z'` move by `'a' - 'A'`. -/
def lowerByte (c : Nat) : Nat :=
  if 65 ≤ c ∧ c ≤ 90 then c + 32 else c

/-- The Go library's `strings.ToLower`: a string of ASCII bytes is lowered byte by byte; any other
string goes through `unicode.ToLower` rune by rune, which is the argument `unicodeLower`. -/
def ToLower (unicodeLower : GoString → GoString) (s : GoString) : GoString :=
  if isASCII s then s.map lowerByte else unicodeLower s

/-- The scan of `strings.ReplaceAll(s, old, "")` for a non-empty `old`: `skip` bytes of a match are
still to be dropped; outside a match, a position where `old` starts opens a match of `len(old)`
bytes, and any other byte is kept. Matches are found left to right and do not overlap. -/
def removeScan (old : GoString) : Nat → GoString → GoString
  | _, [] => []
  | skip + 1, _ :: rest => removeScan old skip rest
  | 0, c :: rest =>
    if old.isPrefixOf (c :: rest) then removeScan old (old.length - 1) rest
    else c :: removeScan old 0 rest

/-- The Go library's `strings.ReplaceAll(s, old, "")`. With `old == ""` the two patterns are equal
and Go returns `s`. -/
def removeAll (s old : GoString) : GoString :=
  if old = [] then s else removeScan old 0 s

/-! ## The schema model and the backend -/

/-- A Go `error`, by its message. -/
structure GoError where
  msg : GoString
  deriving DecidableEq, Repr

/-- The part of gorm's `schema.Field` the migrator reads and writes. `CONSTRAINT` is
`TagSettings["CONSTRAINT"]` (the empty string when the key is absent). -/
structure Field where
  Name : GoString
  DBName : GoString
  CONSTRAINT : GoString
  deriving DecidableEq, Repr

/-- The part of gorm's `schema.Index` that is read: the physical name of the index. -/
structure Index where
  Name : GoString
  deriving DecidableEq, Repr

/-- The part of gorm's `schema.Constraint` that is read. -/
structure Constraint where
  Name : GoString
  OnUpdate : GoString
  OnDelete : GoString
  deriving DecidableEq, Repr

/-- The part of gorm's `schema.Relationship` that is read: its name and its field. -/
structure Relationship where
  Name : GoString
  Field : Field
  deriving DecidableEq, Repr

/-- The part of gorm's `schema.Schema` the migrator reads and writes. `Relations` is the map
`Relationships.Relations`, listed in the order the `range` loop visits it. -/
structure Schema where
  DBNames : List GoString
  Fields : List Field
  Relations : List Relationship
  deriving DecidableEq, Repr

/-- The part of `gorm.Statement` the callbacks read. -/
structure Statement where
  Table : GoString
  Schema : Schema
  deriving DecidableEq, Repr

/-- An argument bound to a `?` placeholder. -/
inductive Arg
  /-- `clause.Table{Name: name}` -/
  | Table (name : GoString)
  /-- `clause.Column{Name: name}` -/
  | Column (name : GoString)
  /-- a plain string -/
  | Str (s : GoString)
  /-- a `clause.Expr`, as `FullDataTypeOf` returns -/
  | Expr (sql : GoString)
  deriving DecidableEq, Repr

/-- A statement or query: its text with `?` placeholders and the arguments bound to them. -/
structure SQL where
  text : String
  args : List Arg
  deriving DecidableEq, Repr

/-- What was sent to the database: `Exec` runs a statement, `Raw` runs a query. -/
inductive Issued
  | Exec (q : SQL)
  | Raw (q : SQL)
  deriving DecidableEq, Repr

/-- The statements a log hands to `Exec`. -/
def execs : List Issued → List SQL
  | [] => []
  | .Exec q :: rest => q :: execs rest
  | .Raw _ :: rest => execs rest

/-- The database and the library functions of gorm that `migrator.go` calls. `σ` is the state of
the database, `V` the values (`interface{}`) passed as models. -/
structure Backend (σ V : Type) where
  /-- The first half of `RunWithValue`: the value resolved to a statement, or the error. -/
  parse : V → Except GoError Statement
  /-- The outcome of `DB.Raw(q, args...).Row().Scan(&count)`: the count, or the error. -/
  scanCount : σ → SQL → Except GoError Int
  /-- The outcome of `DB.Exec(q, args...)`: the next state and `.Error`. -/
  exec : σ → SQL → σ × Option GoError
  /-- The embedded `migrator.Migrator.ReorderModels`. -/
  ReorderModels : List V → Bool → List V
  /-- The migrator's `FullDataTypeOf`. -/
  FullDataTypeOf : Field → GoString
  /-- The schema's `LookUpField`. -/
  LookUpField : Schema → GoString → Option Field
  /-- The schema's `LookIndex`. -/
  LookIndex : Schema → GoString → Option Index
  /-- The relationship's `ParseConstraint` (`none` is the nil pointer). -/
  ParseConstraint : Relationship → Option Constraint
  /-- `DB.NamingStrategy.TableName`. -/
  TableName : GoString → GoString
  /-- `DB.NamingStrategy.IndexName`. -/
  IndexName : GoString → GoString → GoString
  /-- The package's `IsReservedWord`, declared outside `migrator.go`. -/
  IsReservedWord : GoString → Bool
  /-- The error of `RunWithValue` for a value that is itself a `[]interface{}`: gorm's schema
  parser follows the slice to its element type `interface{}`, which is not a struct, and
  returns `ErrUnsupportedDataType` wrapped with the value, whatever the slice holds. -/
  unsupported : List V → GoError
  /-- The library's `unicode.ToLower` mapped over a string that is not ASCII. -/
  unicodeLower : GoString → GoString

variable {σ V : Type}

/-- `DB.Raw(q).Row().Scan(&count)`: a successful scan overwrites `count`, a failed one leaves
it and returns the error. -/
def scanInto (B : Backend σ V) (s : σ) (q : SQL) (count : Int) : Int × Option GoError :=
  match B.scanCount s q with
  | .ok n => (n, none)
  | .error e => (count, some e)

/-! ## Existence predicates -/

/-- The query of `HasTable`, line 50. -/
def hasTableSQL (table : GoString) : SQL :=
  ⟨"SELECT COUNT(*) FROM USER_TABLES WHERE TABLE_NAME = ?", [.Str table]⟩

/-- The method `HasTable`, lines 46-54: the error of `RunWithValue` is dropped and `count > 0`
is returned. The second component is what was sent to the database. -/
def HasTable (B : Backend σ V) (s : σ) (value : V) : Bool × List Issued :=
  let count : Int := 0
  match B.parse value with
  | .error _ => (decide (count > 0), [])
  | .ok stmt =>
    let q := hasTableSQL stmt.Table
    let r := scanInto B s q count
    (decide (r.1 > 0), [.Raw q])

/-- The query of `HasColumn`, line 145. -/
def hasColumnSQL (table field : GoString) : SQL :=
  ⟨"SELECT COUNT(*) FROM USER_TAB_COLUMNS WHERE TABLE_NAME = ? AND COLUMN_NAME = ?",
    [.Str table, .Str field]⟩

/-- The method `HasColumn`, lines 142-147: `RunWithValue(...) == nil && count > 0`. -/
def HasColumn (B : Backend σ V) (s : σ) (value : V) (field : GoString) : Bool × List Issued :=
  let count : Int := 0
  match B.parse value with
  | .error _ => (false && decide (count > 0), [])
  | .ok stmt =>
    let q := hasColumnSQL stmt.Table field
    let r := scanInto B s q count
    (r.2.isNone && decide (r.1 > 0), [.Raw q])

/-- The query of `HasConstraint`, line 176. -/
def hasConstraintSQL (table name : GoString) : SQL :=
  ⟨"SELECT COUNT(*) FROM USER_CONSTRAINTS WHERE TABLE_NAME = ? AND CONSTRAINT_NAME = ?",
    [.Str table, .Str name]⟩

/-- The method `HasConstraint`, lines 172-179. -/
def HasConstraint (B : Backend σ V) (s : σ) (value : V) (name : GoString) :
    Bool × List Issued :=
  let count : Int := 0
  match B.parse value with
  | .error _ => (false && decide (count > 0), [])
  | .ok stmt =>
    let q := hasConstraintSQL stmt.Table name
    let r := scanInto B s q count
    (r.2.isNone && decide (r.1 > 0), [.Raw q])

/-- Lines 183-185 and 194-196: `if idx := stmt.Schema.LookIndex(name); idx != nil
{ name = idx.Name }`. -/
def resolveIndexName (B : Backend σ V) (stmt : Statement) (name : GoString) : GoString :=
  match B.LookIndex stmt.Schema name with
  | some idx => idx.Name
  | none => name

/-- The query of `HasIndex`, lines 198-202. -/
def hasIndexSQL (table name : GoString) : SQL :=
  ⟨"SELECT COUNT(*) FROM USER_INDEXES WHERE TABLE_NAME = ? AND INDEX_NAME = ?",
    [.Str table, .Str name]⟩

/-- The method `HasIndex`, lines 191-206: the error of `RunWithValue` is dropped. -/
def HasIndex (B : Backend σ V) (s : σ) (value : V) (name : GoString) : Bool × List Issued :=
  let count : Int := 0
  match B.parse value with
  | .error _ => (decide (count > 0), [])
  | .ok stmt =>
    let name := resolveIndexName B stmt name
    let q := hasIndexSQL (B.TableName stmt.Table) (B.IndexName stmt.Table name)
    let r := scanInto B s q count
    (decide (r.1 > 0), [.Raw q])

/-! ## Dropping tables -/

/-- The result of a method that returns an `error`: the state of the database afterwards, what
was sent to the database, and the error (`none` is `nil`). -/
structure Outcome (σ : Type) where
  state : σ
  log : List Issued
  err : Option GoError

/-- The statement of `DropTable`, line 37. -/
def dropTableSQL (table : GoString) : SQL :=
  ⟨"DROP TABLE ? CASCADE CONSTRAINTS", [.Table table]⟩

/-- The body of the loop of `DropTable` for one value, lines 33-41. The flag says whether the
loop goes on (`false` is the `return err` of line 39). -/
def dropOne (B : Backend σ V) (s : σ) (value : V) : Outcome σ × Bool :=
  let has := HasTable B s value
  if has.1 then
    match B.parse value with
    | .error e => (⟨s, has.2, some e⟩, false)
    | .ok stmt =>
      let q := dropTableSQL stmt.Table
      let r := B.exec s q
      match r.2 with
      | some e => (⟨r.1, has.2 ++ [.Exec q], some e⟩, false)
      | none => (⟨r.1, has.2 ++ [.Exec q], none⟩, true)
  else (⟨s, has.2, none⟩, true)

/-- The loop of `DropTable`, lines 32-43, `for i := len(values) - 1; i >= 0; i--`, entered with
`n = i + 1`: the values at the indices `n-1, ..., 0` are still to be visited. -/
def dropLoop (B : Backend σ V) (values : List V) : Nat → σ → Outcome σ
  | 0, s => ⟨s, [], none⟩
  | i + 1, s =>
    match values[i]? with
    | none => ⟨s, [], none⟩
    | some value =>
      let r := dropOne B s value
      if r.2 then
        let rest := dropLoop B values i r.1.state
        ⟨rest.state, r.1.log ++ rest.log, rest.err⟩
      else r.1

/-- The method `DropTable`, lines 30-44. -/
def DropTable (B : Backend σ V) (s : σ) (values : List V) : Outcome σ :=
  let values := B.ReorderModels values false
  dropLoop B values values.length s

/-- The drop order in the words of the specification: the values are visited in the order of
the list given, each one that exists is dropped, and the first failure ends the visit. -/
def dropInOrder (B : Backend σ V) : List V → σ → Outcome σ
  | [], s => ⟨s, [], none⟩
  | value :: rest, s =>
    let r := dropOne B s value
    if r.2 then
      let tail := dropInOrder B rest r.1.state
      ⟨tail.state, r.1.log ++ tail.log, tail.err⟩
    else r.1

/-- Whether the catalog query of `HasTable` for the table succeeds with a positive count. -/
def tableExists (B : Backend σ V) (s : σ) (table : GoString) : Bool :=
  match B.scanCount s (hasTableSQL table) with
  | .ok n => decide (n > 0)
  | .error _ => false

/-- The statement `DropTable` issues for a value that resolves. -/
def dropOf (B : Backend σ V) (value : V) : Option SQL :=
  match B.parse value with
  | .ok stmt => some (dropTableSQL stmt.Table)
  | .error _ => none

/-! ## Columns and indexes -/

/-- The result of `fmt.Errorf("failed to look up field with name: %s", field)`. -/
def lookUpError (field : GoString) : GoError :=
  ⟨go "failed to look up field with name: " ++ field⟩

/-- The statement of `AddColumn`, lines 96-99. -/
def addColumnSQL (table column dataType : GoString) : SQL :=
  ⟨"ALTER TABLE ? ADD ? ?", [.Table table, .Column column, .Expr dataType]⟩

/-- The method `AddColumn`, lines 89-103. -/
def AddColumn (B : Backend σ V) (s : σ) (value : V) (field : GoString) : Outcome σ :=
  let has := HasColumn B s value field
  if !has.1 then ⟨s, has.2, none⟩
  else
    match B.parse value with
    | .error e => ⟨s, has.2, some e⟩
    | .ok stmt =>
      match B.LookUpField stmt.Schema field with
      | some f =>
        let q := addColumnSQL stmt.Table f.DBName (B.FullDataTypeOf f)
        let r := B.exec s q
        ⟨r.1, has.2 ++ [.Exec q], r.2⟩
      | none => ⟨s, has.2, some (lookUpError field)⟩

/-- The statement of `DropColumn`, lines 115-119. -/
def dropColumnSQL (table column : GoString) : SQL :=
  ⟨"ALTER TABLE ? DROP ?", [.Table table, .Column column]⟩

/-- The method `DropColumn`, lines 105-121. -/
def DropColumn (B : Backend σ V) (s : σ) (value : V) (name : GoString) : Outcome σ :=
  let has := HasColumn B s value name
  if !has.1 then ⟨s, has.2, none⟩
  else
    match B.parse value with
    | .error e => ⟨s, has.2, some e⟩
    | .ok stmt =>
      let name :=
        match B.LookUpField stmt.Schema name with
        | some f => f.DBName
        | none => name
      let q := dropColumnSQL stmt.Table name
      let r := B.exec s q
      ⟨r.1, has.2 ++ [.Exec q], r.2⟩

/-- The statement of `DropIndex`, line 187. -/
def dropIndexSQL (name table : GoString) : SQL :=
  ⟨"DROP INDEX ?", [.Column name, .Table table]⟩

/-- The method `DropIndex`, lines 181-189. -/
def DropIndex (B : Backend σ V) (s : σ) (value : V) (name : GoString) : Outcome σ :=
  match B.parse value with
  | .error e => ⟨s, [], some e⟩
  | .ok stmt =>
    let name := resolveIndexName B stmt name
    let q := dropIndexSQL name stmt.Table
    let r := B.exec s q
    ⟨r.1, [.Exec q], r.2⟩

/-! ## Rewriting the schema before creation -/

/-- The result of `fmt.Sprintf("ON UPDATE %s", constraint.OnUpdate)`. -/
def onUpdateFragment (onUpdate : GoString) : GoString :=
  go "ON UPDATE " ++ onUpdate

/-- The body of the loop of `TryRemoveOnUpdate` for one relationship, lines 222-225. -/
def removeOnUpdate (B : Backend σ V) (rel : Relationship) : Relationship :=
  match B.ParseConstraint rel with
  | some constraint =>
    { rel with Field := { rel.Field with
        CONSTRAINT := removeAll rel.Field.CONSTRAINT (onUpdateFragment constraint.OnUpdate) } }
  | none => rel

/-- The callback of `TryRemoveOnUpdate`, lines 221-227, as the schema it leaves. Each
relationship has a field of its own, so the loop is a pass over the relationships. -/
def removeOnUpdateSchema (B : Backend σ V) (schema : Schema) : Schema :=
  { schema with Relations := schema.Relations.map (removeOnUpdate B) }

/-- The method `TryRemoveOnUpdate`, lines 219-229: the error of `RunWithValue`, or the schema
as the callback leaves it. -/
def TryRemoveOnUpdate (B : Backend σ V) (value : V) : Except GoError Schema :=
  match B.parse value with
  | .error e => .error e
  | .ok stmt => .ok (removeOnUpdateSchema B stmt.Schema)

/-- The result of `fmt.Sprintf("\"%s\"", v)` for the format of lines 235 and 241. -/
def quoted (v : GoString) : GoString :=
  dquote :: v ++ [dquote]

/-- The first loop of `TryQuotifyReservedWords`, lines 233-237, `for idx, v := range
stmt.Schema.DBNames`, entered at index `idx` with `fuel` elements to go. -/
def quotifyDBNames (B : Backend σ V) : Nat → Nat → List GoString → List GoString
  | 0, _, names => names
  | fuel + 1, idx, names =>
    match names[idx]? with
    | none => names
    | some v =>
      if B.IsReservedWord v then quotifyDBNames B fuel (idx + 1) (names.set idx (quoted v))
      else quotifyDBNames B fuel (idx + 1) names

/-- The body of the second loop of `TryQuotifyReservedWords`, lines 240-242, on the field the
pointer `v` names. -/
def quotifyField (B : Backend σ V) (v : Field) : Field :=
  if B.IsReservedWord v.DBName then { v with DBName := quoted v.DBName } else v

/-- The callback of `TryQuotifyReservedWords`, lines 233-244, as the schema it leaves. The
fields are distinct pointers, so the second loop is a pass over the fields. -/
def quotifySchema (B : Backend σ V) (schema : Schema) : Schema :=
  { schema with
    DBNames := quotifyDBNames B schema.DBNames.length 0 schema.DBNames
    Fields := schema.Fields.map (quotifyField B) }

/-- The first half of `RunWithValue` when the value is the slice `values []interface{}` itself,
as at line 232: there is no statement, only gorm's error for a slice of interfaces. -/
def parseSlice (B : Backend σ V) (values : List V) : Except GoError Statement :=
  .error (B.unsupported values)

/-- The method `TryQuotifyReservedWords`, lines 231-246, which hands the whole slice `values` to
`RunWithValue`: the error of `RunWithValue`, or the schema as the callback leaves it. -/
def TryQuotifyReservedWords (B : Backend σ V) (values : List V) : Except GoError Schema :=
  match parseSlice B values with
  | .error e => .error e
  | .ok stmt => .ok (quotifySchema B stmt.Schema)

/-- The rule of the specification for one identifier: a reserved word is wrapped in one pair
of double quotes, any other identifier is returned as it is. -/
def Quote (B : Backend σ V) (v : GoString) : GoString :=
  if B.IsReservedWord v then quoted v else v

/-! ## `ColumnTypes` -/

/-- Go's `sql.NullString`. -/
structure NullString where
  String : GoString
  Valid : Bool
  deriving DecidableEq, Repr

/-- Go's `sql.NullBool`. -/
structure NullBool where
  Valid : Bool
  Bool : Bool
  deriving DecidableEq, Repr

/-- Go's `sql.NullInt64`. -/
structure NullInt64 where
  Int64 : Int
  Valid : Bool
  deriving DecidableEq, Repr

/-- The driver's `*sql.ColumnType`, by what `Name()` returns. -/
structure RawColumnType where
  Name : GoString
  deriving DecidableEq, Repr

/-- The record `migrator.ColumnType` of gorm. `SQLColumnType` is `none` for the nil pointer. -/
structure ColumnType where
  SQLColumnType : Option RawColumnType
  NameValue : NullString
  DataTypeValue : NullString
  ColumnTypeValue : NullString
  PrimaryKeyValue : NullBool
  UniqueValue : NullBool
  AutoIncrementValue : NullBool
  LengthValue : NullInt64
  DecimalSizeValue : NullInt64
  ScaleValue : NullInt64
  NullableValue : NullBool
  CommentValue : NullString
  DefaultValueValue : NullString
  deriving DecidableEq, Repr

/-- What `columns.Scan(values...)` writes to its seven destinations, lines 297-309, in the
order of the projection `COLUMN_NAME, DATA_DEFAULT, DECODE(NULLABLE,'Y',1,0), DATA_TYPE,
CHAR_LENGTH, DATA_PRECISION, DATA_SCALE`. -/
structure ScannedRow where
  Name : NullString
  Default : NullString
  Nullable : NullBool
  DataType : NullString
  Length : NullInt64
  DecimalSize : NullInt64
  Scale : NullInt64
  deriving DecidableEq, Repr

/-- The zero value of `migrator.ColumnType`, `var column migrator.ColumnType`. -/
def zeroColumn : ColumnType :=
  { SQLColumnType := none
    NameValue := ⟨[], false⟩
    DataTypeValue := ⟨[], false⟩
    ColumnTypeValue := ⟨[], false⟩
    PrimaryKeyValue := ⟨false, false⟩
    UniqueValue := ⟨false, false⟩
    AutoIncrementValue := ⟨false, false⟩
    LengthValue := ⟨0, false⟩
    DecimalSizeValue := ⟨0, false⟩
    ScaleValue := ⟨0, false⟩
    NullableValue := ⟨false, false⟩
    CommentValue := ⟨[], false⟩
    DefaultValueValue := ⟨[], false⟩ }

/-- The loop of lines 352-357: the first raw column type whose name is the scanned name. -/
def findRaw (rawColumnTypes : List RawColumnType) (name : GoString) : Option RawColumnType :=
  rawColumnTypes.find? (fun c => decide (c.Name = name))

/-- The body of the loop of `ColumnTypes` after a successful scan, lines 292-360: the column
that is appended. -/
def decodeColumn (B : Backend σ V) (rawColumnTypes : List RawColumnType) (row : ScannedRow) :
    ColumnType :=
  let column : ColumnType :=
    { zeroColumn with
      NameValue := row.Name
      DefaultValueValue := row.Default
      NullableValue := row.Nullable
      DataTypeValue := row.DataType
      LengthValue := row.Length
      DecimalSizeValue := row.DecimalSize
      ScaleValue := row.Scale }
  let datetimePrecision : NullInt64 := ⟨0, false⟩
  let column := { column with PrimaryKeyValue := { Bool := false, Valid := true } }
  let column := { column with UniqueValue := { Bool := false, Valid := true } }
  let s := unwrap column.DefaultValueValue.String
  let column := { column with DefaultValueValue := { column.DefaultValueValue with String := s } }
  let column :=
    if datetimePrecision.Valid then { column with DecimalSizeValue := datetimePrecision }
    else column
  let column :=
    match findRaw rawColumnTypes column.NameValue.String with
    | some c => { column with SQLColumnType := some c }
    | none => column
  { column with
    NameValue := { column.NameValue with String := ToLower B.unicodeLower column.NameValue.String } }

/-- The loop `for columns.Next()` of lines 291-361: each row with the outcome of its scan; a
failed scan returns its error and leaves the columns appended so far. -/
def columnsLoop (B : Backend σ V) (rawColumnTypes : List RawColumnType) :
    List (Except GoError ScannedRow) → List ColumnType → List ColumnType × Option GoError
  | [], columnTypes => (columnTypes, none)
  | .error scanErr :: _, columnTypes => (columnTypes, some scanErr)
  | .ok row :: rest, columnTypes =>
    columnsLoop B rawColumnTypes rest (columnTypes ++ [decodeColumn B rawColumnTypes row])

/-- The outcomes of the reads `ColumnTypes` makes before its loop. -/
structure CatalogRead where
  /-- `m.DB.Session(...).Table(table).Limit(1).Rows()`, line 262: its error. -/
  rowsErr : Option GoError
  /-- `rows.ColumnTypes()`, line 269. -/
  rawColumnTypes : Except GoError (List RawColumnType)
  /-- `rows.Close()`, line 275: its error. -/
  closeErr : Option GoError
  /-- `m.DB.Debug().Table(table).Raw(columnTypeSQL, table).Rows()`, line 284: the rows of
  `USER_TAB_COLUMNS` for the table in `COLUMN_ID` order, each with the outcome of its scan. -/
  columns : Except GoError (List (Except GoError ScannedRow))

/-- The method `ColumnTypes`, lines 256-367. The table name that `CurrentSchema` computes only
selects what is read, and what is read is `db`. -/
def ColumnTypes (B : Backend σ V) (value : V) (db : CatalogRead) :
    List ColumnType × Option GoError :=
  let columnTypes : List ColumnType := []
  match B.parse value with
  | .error e => (columnTypes, some e)
  | .ok _ =>
    match db.rowsErr with
    | some err => (columnTypes, some err)
    | none =>
      match db.rawColumnTypes with
      | .error err => (columnTypes, some err)
      | .ok rawColumnTypes =>
        match db.closeErr with
        | some err => (columnTypes, some err)
        | none =>
          match db.columns with
          | .error rowErr => (columnTypes, some rowErr)
          | .ok columns => columnsLoop B rawColumnTypes columns columnTypes

/-! ## Concrete backends -/

/-- A catalog: the tables and the columns (table, column) that exist. -/
structure Catalog where
  tables : List GoString
  columns : List (GoString × GoString)
  deriving DecidableEq, Repr

/-- A schema with one field `Name` stored as `NAME`. -/
def demoSchema : Schema :=
  { DBNames := [go "NAME"]
    Fields := [⟨go "Name", go "NAME", []⟩]
    Relations := [] }

/-- A backend over a `Catalog`: a value is the name of its table, the count queries count the
entries of the catalog, `DROP TABLE` removes the table and fails on a table that is absent,
`ADD` fails on a column that exists, `DROP` fails on a column that is absent, and the naming
strategy builds `idx_<table>_<name>` as gorm's default one does. -/
def demo : Backend Catalog GoString where
  parse v := .ok ⟨v, demoSchema⟩
  scanCount s q :=
    match q.args with
    | [.Str t] => .ok (if t ∈ s.tables then 1 else 0)
    | [.Str t, .Str c] => .ok (if (t, c) ∈ s.columns then 1 else 0)
    | _ => .error ⟨go "ORA-00900"⟩
  exec s q :=
    match q.args with
    | [.Table t] =>
      if t ∈ s.tables then ({ s with tables := s.tables.filter (fun x => decide (x ≠ t)) }, none)
      else (s, some ⟨go "ORA-00942"⟩)
    | [.Table t, .Column c, .Expr _] =>
      if (t, c) ∈ s.columns then (s, some ⟨go "ORA-01430"⟩)
      else ({ s with columns := s.columns ++ [(t, c)] }, none)
    | [.Table t, .Column c] =>
      if (t, c) ∈ s.columns then
        ({ s with columns := s.columns.filter (fun x => decide (x ≠ (t, c))) }, none)
      else (s, some ⟨go "ORA-00904"⟩)
    | _ => (s, none)
  ReorderModels vs _ := if vs = [go "B", go "A"] then [go "A", go "B"] else vs
  FullDataTypeOf _ := go "VARCHAR2(255)"
  LookUpField schema name := schema.Fields.find? (fun f => decide (f.Name = name ∨ f.DBName = name))
  LookIndex _ name := if name = go "idx_name" then some ⟨go "IDX_USERS_NAME"⟩ else none
  ParseConstraint _ := some ⟨go "fk", go "X", []⟩
  TableName t := t
  IndexName t n := go "idx_" ++ t ++ go "_" ++ n
  IsReservedWord v := decide (v = go "NAME")
  unsupported _ := ⟨go "unsupported data type"⟩
  unicodeLower v := v

/-- A backend whose catalog queries all fail. -/
def failing : Backend Catalog GoString :=
  { demo with scanCount := fun _ _ => .error ⟨go "ORA-03113"⟩ }

/-- The catalog with table `T` and its column `NAME`. -/
def catalogT : Catalog :=
  { tables := [go "T"], columns := [(go "T", go "NAME")] }

/-- The catalog row of the specification: `NAME="id"`, `DEFAULT="'5'"`, nullable flag 0,
`TYPE="NUMBER"`, `LENGTH` null, `PRECISION=10`, `SCALE=0`. -/
def idRow : ScannedRow :=
  { Name := ⟨go "id", true⟩
    Default := ⟨go "'5'", true⟩
    Nullable := { Bool := false, Valid := true }
    DataType := ⟨go "NUMBER", true⟩
    Length := ⟨0, false⟩
    DecimalSize := ⟨10, true⟩
    Scale := ⟨0, true⟩ }

/-- A relationship whose constraint tag holds one `ON UPDATE X` inside another; gorm parses
the setting `OnUpdate:X` of this tag to the action `X`. -/
def nestedRel : Relationship :=
  { Name := go "Owner"
    Field := ⟨go "Owner", go "", go "OnUpdate:X,ON UPON UPDATE XDATE X"⟩ }

/-- The demo backend with a schema that has the relationship `nestedRel`. -/
def nested : Backend Catalog GoString :=
  { demo with parse := fun v => .ok ⟨v, { demoSchema with Relations := [nestedRel] }⟩ }

/-- A relationship whose constraint tag holds `ON UPDATE X` once. -/
def plainRel : Relationship :=
  { Name := go "Owner"
    Field := ⟨go "Owner", go "", go "ON UPDATE X ON DELETE CASCADE"⟩ }

/-- The demo backend with a schema that has the relationship `plainRel`. -/
def plain : Backend Catalog GoString :=
  { demo with parse := fun v => .ok ⟨v, { demoSchema with Relations := [plainRel] }⟩ }

/-- The catalog with the tables `A` and `B`. -/
def catalogAB : Catalog :=
  { tables := [go "A", go "B"], columns := [] }

/-- The demo backend with a reordering that returns the values in the order given, as gorm's
`ReorderModels` does for table names passed as strings. -/
def inputOrder : Backend Catalog GoString :=
  { demo with ReorderModels := fun vs _ => vs }

/-- A catalog row as the catalog stores it, with the name in upper case: `NAME="USER_ID"`,
no default, nullable flag 1, `TYPE="VARCHAR2"`, `LENGTH=32`, no precision and no scale. -/
def userIdRow : ScannedRow :=
  { Name := ⟨go "USER_ID", true⟩
    Default := ⟨[], false⟩
    Nullable := { Bool := true, Valid := true }
    DataType := ⟨go "VARCHAR2", true⟩
    Length := ⟨32, true⟩
    DecimalSize := ⟨0, false⟩
    Scale := ⟨0, false⟩ }

/-! # Proofs -/

/-! ## Lemmas on the unwrap loop -/

theorem unwrapCond_length {s : GoString} (h : unwrapCond s = true) : 2 ≤ s.length := by
  unfold unwrapCond at h
  simp only [Bool.or_eq_true, Bool.and_eq_true, decide_eq_true_eq] at h
  omega

theorem unwrapStep_length (s : GoString) : (unwrapStep s).length = s.length - 2 := by
  unfold unwrapStep slice
  simp only [List.length_drop, List.length_take]
  omega

/-- With at least `len(s)` iterations allowed, the loop ends because its condition is false. -/
theorem unwrapCond_unwrapLoop (fuel : Nat) (s : GoString) (h : s.length ≤ fuel) :
    unwrapCond (unwrapLoop fuel s) = false := by
  induction fuel generalizing s with
  | zero =>
    cases hc : unwrapCond s with
    | false => simpa [unwrapLoop] using hc
    | true => have := unwrapCond_length hc; omega
  | succ n ih =>
    cases hc : unwrapCond s with
    | false => simp [unwrapLoop, hc]
    | true =>
      simp only [unwrapLoop, hc, if_true]
      apply ih
      have := unwrapCond_length hc
      rw [unwrapStep_length]; omega

theorem unwrapCond_unwrap (s : GoString) : unwrapCond (unwrap s) = false :=
  unwrapCond_unwrapLoop s.length s (Nat.le_refl _)

/-- The loop leaves a string alone when its condition is false on entry. -/
theorem unwrapLoop_of_not_cond (fuel : Nat) (s : GoString) (h : unwrapCond s = false) :
    unwrapLoop fuel s = s := by
  cases fuel with
  | zero => rfl
  | succ n => simp [unwrapLoop, h]

/-- Any two amounts of fuel of at least `len(s)` give the same result: `unwrap` is the loop run
to its end. -/
theorem unwrapLoop_fuel (f g : Nat) (s : GoString) (hf : s.length ≤ f) (hg : s.length ≤ g) :
    unwrapLoop f s = unwrapLoop g s := by
  induction f generalizing g s with
  | zero =>
    have h0 : s = [] := List.length_eq_zero.mp (by omega)
    subst h0
    cases g <;> rfl
  | succ n ih =>
    cases hc : unwrapCond s with
    | false => rw [unwrapLoop_of_not_cond _ _ hc, unwrapLoop_of_not_cond _ _ hc]
    | true =>
      have h2 := unwrapCond_length hc
      have hl := unwrapStep_length s
      cases g with
      | zero => omega
      | succ m =>
        simp only [unwrapLoop, hc, if_true]
        exact ih m _ (by omega) (by omega)

/-! ## C1, C2: the unwrap loop -/

/-- C1: unwrapping the default literal is idempotent: for every string `s`, running the
quote-stripping loop on the result of the loop returns that result unchanged, since the loop
ends on a string on which its condition is false. -/
theorem unwrap_idempotent (s : GoString) :
    unwrap (unwrap s) = unwrap s ∧ unwrapCond (unwrap s) = false :=
  ⟨unwrapLoop_of_not_cond _ _ (unwrapCond_unwrap s), unwrapCond_unwrap s⟩

/-- C2, as the claim states it, fails: the loop does not return `'it''s'` unchanged. -/
theorem unwrap_keeps_literal_counterexample :
    ¬ (unwrap (go "'it''s'") = go "'it''s'" ∧ unwrap (go "''") = go "") := by
  decide

/-- C2, amended: the trailing quote of `'it''s'` is not preceded by a backslash, so the loop
strips the outer pair once and returns `it''s`; the two-character literal `''` unwraps to the
empty string; and a literal `'...\'`, whose trailing quote is preceded by a backslash, is
returned unchanged. -/
theorem unwrap_escaped_quote :
    unwrap (go "'it''s'") = go "it''s" ∧ unwrap (go "''") = go "" ∧
    ∀ s : GoString, unwrap (squote :: s ++ [backslash, squote])
      = squote :: s ++ [backslash, squote] := by
  refine ⟨by decide, by decide, fun s => ?_⟩
  apply unwrapLoop_of_not_cond
  have h1 : (squote :: s ++ [backslash, squote]).length = s.length + 3 := by simp
  have h2 : (squote :: s ++ [backslash, squote])[s.length + 1]? = some backslash := by
    rw [List.cons_append, List.getElem?_cons_succ, List.getElem?_append_right (Nat.le_refl _)]
    simp
  unfold unwrapCond
  rw [h1]
  have h3 : s.length + 3 - 2 = s.length + 1 := by omega
  rw [h3, h2]
  simp

/-! ## C3: decoding a catalog row -/

theorem columnsLoop_ok (B : Backend σ V) (raw : List RawColumnType) (rows : List ScannedRow)
    (acc : List ColumnType) :
    columnsLoop B raw (rows.map Except.ok) acc = (acc ++ rows.map (decodeColumn B raw), none) := by
  induction rows generalizing acc with
  | nil => simp [columnsLoop]
  | cons r rest ih => simp [columnsLoop, ih]

theorem lowerByte_not_upper (a : Nat) : ¬ (65 ≤ lowerByte a ∧ lowerByte a ≤ 90) := by
  unfold lowerByte
  split <;> omega

/-- C3: for every scanned catalog row the appended column has the lower-cased name, the
unwrapped default, primary-key and unique flags that are a valid `false`, and the scanned
nullable flag, native type, length, precision and scale; a name of ASCII bytes comes out with
every byte `'A'..'Z'` moved to `'a'..'z'`, every other byte kept and no upper-case letter
left, so `USER_ID` decodes to `user_id`; the row of the specification decodes to name `id`,
nullable `false`, default `5`, precision 10, scale 0; and when every read and every scan
succeeds the output has one column per row, in row order, and no error. -/
theorem ColumnTypes_decode (B : Backend σ V) (raw : List RawColumnType) :
    (∀ row : ScannedRow,
      (decodeColumn B raw row).NameValue = ⟨ToLower B.unicodeLower row.Name.String, row.Name.Valid⟩ ∧
      (decodeColumn B raw row).DefaultValueValue
        = ⟨unwrap row.Default.String, row.Default.Valid⟩ ∧
      (decodeColumn B raw row).PrimaryKeyValue = { Bool := false, Valid := true } ∧
      (decodeColumn B raw row).UniqueValue = { Bool := false, Valid := true } ∧
      (decodeColumn B raw row).NullableValue = row.Nullable ∧
      (decodeColumn B raw row).DataTypeValue = row.DataType ∧
      (decodeColumn B raw row).LengthValue = row.Length ∧
      (decodeColumn B raw row).DecimalSizeValue = row.DecimalSize ∧
      (decodeColumn B raw row).ScaleValue = row.Scale) ∧
    (∀ row : ScannedRow, isASCII row.Name.String = true →
      (decodeColumn B raw row).NameValue.String.length = row.Name.String.length ∧
      (∀ (i : Nat) (c : Nat), row.Name.String[i]? = some c →
        (decodeColumn B raw row).NameValue.String[i]?
          = some (if 65 ≤ c ∧ c ≤ 90 then c + 32 else c)) ∧
      (∀ c ∈ (decodeColumn B raw row).NameValue.String, ¬ (65 ≤ c ∧ c ≤ 90))) ∧
    ((decodeColumn B raw userIdRow).NameValue.String = go "user_id" ∧
      (decodeColumn B raw { idRow with Name := ⟨go "Id", true⟩ }).NameValue.String = go "id") ∧
    ((decodeColumn B raw idRow).NameValue.String = go "id" ∧
      (decodeColumn B raw idRow).NullableValue = { Bool := false, Valid := true } ∧
      (decodeColumn B raw idRow).DefaultValueValue.String = go "5" ∧
      (decodeColumn B raw idRow).DecimalSizeValue = ⟨10, true⟩ ∧
      (decodeColumn B raw idRow).ScaleValue = ⟨0, true⟩) ∧
    (∀ (value : V) (stmt : Statement) (rows : List ScannedRow),
      B.parse value = .ok stmt →
      ColumnTypes B value ⟨none, .ok raw, none, .ok (rows.map Except.ok)⟩
        = (rows.map (decodeColumn B raw), none)) := by
  have hrow : ∀ row : ScannedRow,
      (decodeColumn B raw row).NameValue = ⟨ToLower B.unicodeLower row.Name.String, row.Name.Valid⟩ ∧
      (decodeColumn B raw row).DefaultValueValue
        = ⟨unwrap row.Default.String, row.Default.Valid⟩ ∧
      (decodeColumn B raw row).PrimaryKeyValue = { Bool := false, Valid := true } ∧
      (decodeColumn B raw row).UniqueValue = { Bool := false, Valid := true } ∧
      (decodeColumn B raw row).NullableValue = row.Nullable ∧
      (decodeColumn B raw row).DataTypeValue = row.DataType ∧
      (decodeColumn B raw row).LengthValue = row.Length ∧
      (decodeColumn B raw row).DecimalSizeValue = row.DecimalSize ∧
      (decodeColumn B raw row).ScaleValue = row.Scale := by
    intro row
    unfold decodeColumn
    cases hf : findRaw raw row.Name.String <;> simp [hf, zeroColumn]
  have hascii : ∀ name : GoString, isASCII name = true →
      ToLower B.unicodeLower name = name.map lowerByte := by
    intro name ha
    unfold ToLower
    rw [if_pos ha]
  have hun : unwrap (go "'5'") = go "5" := by decide
  refine ⟨hrow, fun row ha => ?_, ?_, ?_, fun value stmt rows h => ?_⟩
  · rw [(hrow row).1]
    simp only
    rw [hascii _ ha]
    refine ⟨List.length_map _ _, fun i c hc => ?_, fun c hc => ?_⟩
    · rw [List.getElem?_map, hc]
      rfl
    · obtain ⟨a, -, rfl⟩ := List.mem_map.mp hc
      exact lowerByte_not_upper a
  · rw [(hrow userIdRow).1, (hrow { idRow with Name := ⟨go "Id", true⟩ }).1]
    simp only
    rw [hascii _ (by decide), hascii _ (by decide)]
    exact ⟨by decide, by decide⟩
  · obtain ⟨h1, h2, -, -, h5, -, -, h8, h9⟩ := hrow idRow
    rw [h1, h2, h5, h8, h9]
    simp only
    rw [hascii _ (by decide)]
    exact ⟨by decide, rfl, hun, rfl, rfl⟩
  · simp [ColumnTypes, h, columnsLoop_ok]

/-- C3 at the demo backend: the row of the specification and the row `USER_ID` give two
columns, in that order, named `id` and `user_id`. -/
theorem ColumnTypes_decode_witness :
    demo.parse (go "T") = .ok ⟨go "T", demoSchema⟩ ∧
    ColumnTypes demo (go "T") ⟨none, .ok [], none, .ok ([idRow, userIdRow].map Except.ok)⟩
      = ([idRow, userIdRow].map (decodeColumn demo []), none) ∧
    ([idRow, userIdRow].map (decodeColumn demo [])).map (fun c => c.NameValue.String)
      = [go "id", go "user_id"] ∧
    (isASCII userIdRow.Name.String = true ∧
      (decodeColumn demo [] userIdRow).NameValue.String.length = 7 ∧
      (decodeColumn demo [] userIdRow).NameValue.String[0]? = some 117) :=
  ⟨rfl,
    (ColumnTypes_decode demo []).2.2.2.2 (go "T") ⟨go "T", demoSchema⟩ [idRow, userIdRow] rfl,
    by decide,
    by decide,
    ((ColumnTypes_decode demo []).2.1 userIdRow (by decide)).1,
    ((ColumnTypes_decode demo []).2.1 userIdRow (by decide)).2.1 0 85 (by decide)⟩

/-! ## C9: the existence predicates -/

/-- C9, as the claim states it, fails: with a backend whose catalog queries fail, each of the
four predicates returns `false`, the answer it gives for an object that does not exist, while
the same table is found when the query succeeds. -/
theorem existence_failure_counterexample :
    failing.scanCount catalogT (hasTableSQL (go "T")) = .error ⟨go "ORA-03113"⟩ ∧
    (HasTable failing catalogT (go "T")).1 = false ∧
    (HasColumn failing catalogT (go "T") (go "NAME")).1 = false ∧
    (HasConstraint failing catalogT (go "T") (go "fk")).1 = false ∧
    (HasIndex failing catalogT (go "T") (go "idx_name")).1 = false ∧
    (HasTable demo catalogT (go "T")).1 = true :=
  ⟨rfl, by decide⟩

/-- C9, amended: none of `HasTable`, `HasColumn`, `HasConstraint`, `HasIndex` surfaces a
failure; each returns `true` exactly when the model resolves and the `COUNT(*)` query succeeds
with a count greater than 0, and `false` in every other case, a failed resolution or a failed
query included. -/
theorem existence_iff_count_pos (B : Backend σ V) (s : σ) (value : V) (name : GoString) :
    ((HasTable B s value).1 = true ↔
      ∃ stmt n, B.parse value = .ok stmt ∧
        B.scanCount s (hasTableSQL stmt.Table) = .ok n ∧ n > 0) ∧
    ((HasColumn B s value name).1 = true ↔
      ∃ stmt n, B.parse value = .ok stmt ∧
        B.scanCount s (hasColumnSQL stmt.Table name) = .ok n ∧ n > 0) ∧
    ((HasConstraint B s value name).1 = true ↔
      ∃ stmt n, B.parse value = .ok stmt ∧
        B.scanCount s (hasConstraintSQL stmt.Table name) = .ok n ∧ n > 0) ∧
    ((HasIndex B s value name).1 = true ↔
      ∃ stmt n, B.parse value = .ok stmt ∧
        B.scanCount s (hasIndexSQL (B.TableName stmt.Table)
          (B.IndexName stmt.Table (resolveIndexName B stmt name))) = .ok n ∧ n > 0) := by
  refine ⟨?_, ?_, ?_, ?_⟩
  · unfold HasTable
    cases hp : B.parse value with
    | error e => simp
    | ok stmt =>
      cases hq : B.scanCount s (hasTableSQL stmt.Table) <;> simp [scanInto, hq]
  · unfold HasColumn
    cases hp : B.parse value with
    | error e => simp
    | ok stmt =>
      cases hq : B.scanCount s (hasColumnSQL stmt.Table name) <;> simp [scanInto, hq]
  · unfold HasConstraint
    cases hp : B.parse value with
    | error e => simp
    | ok stmt =>
      cases hq : B.scanCount s (hasConstraintSQL stmt.Table name) <;> simp [scanInto, hq]
  · unfold HasIndex
    cases hp : B.parse value with
    | error e => simp
    | ok stmt =>
      cases hq : B.scanCount s (hasIndexSQL (B.TableName stmt.Table)
          (B.IndexName stmt.Table (resolveIndexName B stmt name))) <;> simp [scanInto, hq]

/-! ## C4: the gate of `AddColumn` and `DropColumn` -/

/-- C4 at the failing input: on the catalog with table `T` and column `NAME`, `HasColumn`
reports that `NAME` exists and `AddColumn` issues `ALTER TABLE ? ADD ? ?` for it, which the
database rejects; `HasColumn` reports that `AGE` is absent and `AddColumn` issues nothing and
returns no error. `DropColumn` issues one `ALTER TABLE ? DROP ?` for `NAME` and nothing for
`AGE`. -/
theorem AddColumn_gate_inverted :
    (HasColumn demo catalogT (go "T") (go "NAME")).1 = true ∧
    execs (AddColumn demo catalogT (go "T") (go "NAME")).log
      = [addColumnSQL (go "T") (go "NAME") (go "VARCHAR2(255)")] ∧
    (AddColumn demo catalogT (go "T") (go "NAME")).err = some ⟨go "ORA-01430"⟩ ∧
    (HasColumn demo catalogT (go "T") (go "AGE")).1 = false ∧
    execs (AddColumn demo catalogT (go "T") (go "AGE")).log = [] ∧
    (AddColumn demo catalogT (go "T") (go "AGE")).err = none ∧
    execs (DropColumn demo catalogT (go "T") (go "NAME")).log
      = [dropColumnSQL (go "T") (go "NAME")] ∧
    (DropColumn demo catalogT (go "T") (go "NAME")).err = none ∧
    execs (DropColumn demo catalogT (go "T") (go "AGE")).log = [] ∧
    (DropColumn demo catalogT (go "T") (go "AGE")).err = none := by
  decide

/-! ## C5: the name of the index -/

/-- C5, as the claim states it, fails for `HasIndex`: the model maps `idx_name` to the physical
name `IDX_USERS_NAME`; `DropIndex` drops `IDX_USERS_NAME`, but the query of `HasIndex` does
not ask for `IDX_USERS_NAME`: it asks for `idx_T_IDX_USERS_NAME`, the name the naming strategy
builds from the table and the physical name. -/
theorem HasIndex_name_counterexample :
    demo.LookIndex demoSchema (go "idx_name") = some ⟨go "IDX_USERS_NAME"⟩ ∧
    (DropIndex demo catalogT (go "T") (go "idx_name")).log
      = [.Exec (dropIndexSQL (go "IDX_USERS_NAME") (go "T"))] ∧
    (HasIndex demo catalogT (go "T") (go "idx_name")).2
      ≠ [.Raw (hasIndexSQL (go "T") (go "IDX_USERS_NAME"))] ∧
    (HasIndex demo catalogT (go "T") (go "idx_name")).2
      = [.Raw (hasIndexSQL (go "T") (go "idx_T_IDX_USERS_NAME"))] := by
  decide

/-- C5, amended: when the model resolves, `DropIndex` issues `DROP INDEX ?` with exactly the
physical name `p` the index lookup maps `n` to, and with `n` unchanged when the lookup finds
no index; `HasIndex` resolves the name the same way and queries `USER_INDEXES` for
`NamingStrategy.IndexName(table, p)` (for `NamingStrategy.IndexName(table, n)` when the
lookup finds no index), on the table `NamingStrategy.TableName(table)`. -/
theorem index_name_resolution (B : Backend σ V) (s : σ) (value : V) (n : GoString)
    (stmt : Statement) (h : B.parse value = .ok stmt) :
    (∀ idx, B.LookIndex stmt.Schema n = some idx →
      (DropIndex B s value n).log = [.Exec (dropIndexSQL idx.Name stmt.Table)] ∧
      (HasIndex B s value n).2
        = [.Raw (hasIndexSQL (B.TableName stmt.Table) (B.IndexName stmt.Table idx.Name))]) ∧
    (B.LookIndex stmt.Schema n = none →
      (DropIndex B s value n).log = [.Exec (dropIndexSQL n stmt.Table)] ∧
      (HasIndex B s value n).2
        = [.Raw (hasIndexSQL (B.TableName stmt.Table) (B.IndexName stmt.Table n))]) := by
  constructor
  · intro idx hidx
    simp [DropIndex, HasIndex, h, resolveIndexName, hidx]
  · intro hidx
    simp [DropIndex, HasIndex, h, resolveIndexName, hidx]

/-- C5 at the demo backend: `idx_name` is mapped to `IDX_USERS_NAME`, and `other` is not
mapped. -/
theorem index_name_resolution_witness :
    ((DropIndex demo catalogT (go "T") (go "idx_name")).log
        = [.Exec (dropIndexSQL (go "IDX_USERS_NAME") (go "T"))] ∧
      (HasIndex demo catalogT (go "T") (go "idx_name")).2
        = [.Raw (hasIndexSQL (go "T") (demo.IndexName (go "T") (go "IDX_USERS_NAME")))]) ∧
    ((DropIndex demo catalogT (go "T") (go "other")).log
        = [.Exec (dropIndexSQL (go "other") (go "T"))] ∧
      (HasIndex demo catalogT (go "T") (go "other")).2
        = [.Raw (hasIndexSQL (go "T") (demo.IndexName (go "T") (go "other")))]) :=
  ⟨(index_name_resolution demo catalogT (go "T") (go "idx_name") ⟨go "T", demoSchema⟩ rfl).1
      ⟨go "IDX_USERS_NAME"⟩ (by decide),
    (index_name_resolution demo catalogT (go "T") (go "other") ⟨go "T", demoSchema⟩ rfl).2
      (by decide)⟩

/-! ## C8: quoting reserved words -/

theorem quotifyDBNames_append (B : Backend σ V) (post pre : List GoString) (fuel : Nat)
    (h : post.length ≤ fuel) :
    quotifyDBNames B fuel pre.length (pre ++ post) = pre ++ post.map (Quote B) := by
  induction post generalizing pre fuel with
  | nil =>
    cases fuel with
    | zero => simp [quotifyDBNames]
    | succ f => simp [quotifyDBNames]
  | cons v rest ih =>
    cases fuel with
    | zero => simp at h
    | succ f =>
      have hf : rest.length ≤ f := by simpa using h
      have hget : (pre ++ v :: rest)[pre.length]? = some v := by
        rw [List.getElem?_append_right (Nat.le_refl _)]; simp
      have hlen : (pre ++ [v]).length = pre.length + 1 := by simp
      unfold quotifyDBNames
      simp only [hget]
      by_cases hr : B.IsReservedWord v = true
      · have hset : (pre ++ v :: rest).set pre.length (quoted v) = (pre ++ [quoted v]) ++ rest := by
          simp
        have hlen' : (pre ++ [quoted v]).length = pre.length + 1 := by simp
        rw [if_pos hr, hset, ← hlen', ih _ _ hf]
        simp [Quote, hr]
      · have hsplit : pre ++ v :: rest = (pre ++ [v]) ++ rest := by simp
        rw [if_neg hr, hsplit, ← hlen, ih _ _ hf]
        simp [Quote, hr]

theorem quotifyDBNames_eq_map (B : Backend σ V) (names : List GoString) :
    quotifyDBNames B names.length 0 names = names.map (Quote B) := by
  simpa using quotifyDBNames_append B names [] names.length (Nat.le_refl _)

/-- The callback of `TryQuotifyReservedWords`, on the schema of a statement: every entry of
`DBNames` and every field's `DBName` is passed through `Quote`, which wraps an identifier that
`IsReservedWord` accepts in exactly one pair of double quotes and is the identity on every
other identifier; the number and the order of the names and of the fields are unchanged. -/
theorem quotifySchema_eq_Quote (B : Backend σ V) (schema : Schema) :
    (∀ v, (B.IsReservedWord v = true → Quote B v = dquote :: v ++ [dquote]) ∧
      (B.IsReservedWord v = false → Quote B v = v)) ∧
    (quotifySchema B schema).DBNames = schema.DBNames.map (Quote B) ∧
    (quotifySchema B schema).Fields
      = schema.Fields.map (fun f => { f with DBName := Quote B f.DBName }) ∧
    (quotifySchema B schema).Relations = schema.Relations := by
  refine ⟨fun v => ⟨fun hv => by simp [Quote, hv, quoted], fun hv => by simp [Quote, hv]⟩,
    quotifyDBNames_eq_map B _, ?_, rfl⟩
  show schema.Fields.map (quotifyField B) = _
  apply List.map_congr_left
  intro f _
  unfold quotifyField Quote
  split <;> rfl

/-- The callback of `TryQuotifyReservedWords` is never entered: `RunWithValue` is given the
slice, returns its error, and the method returns that error. -/
theorem TryQuotifyReservedWords_error (B : Backend σ V) (values : List V) :
    TryQuotifyReservedWords B values = .error (B.unsupported values) :=
  rfl

/-- C8 at the failing input: the model `T` resolves to a schema whose name `NAME` and whose
field stored as `NAME` are reserved words; `TryQuotifyReservedWords` of the slice that holds
`T` returns the error of `RunWithValue` and leaves no schema, so `NAME` stays unquoted, while
its callback, had it been entered with that schema, would have left `"NAME"`. -/
theorem TryQuotifyReservedWords_quotes_nothing :
    demo.parse (go "T") = .ok ⟨go "T", demoSchema⟩ ∧
    demo.IsReservedWord (go "NAME") = true ∧
    demoSchema.DBNames = [go "NAME"] ∧
    demoSchema.Fields = [⟨go "Name", go "NAME", []⟩] ∧
    TryQuotifyReservedWords demo [go "T"] = .error ⟨go "unsupported data type"⟩ ∧
    (quotifySchema demo demoSchema).DBNames = [go "\"NAME\""] ∧
    (quotifySchema demo demoSchema).Fields = [⟨go "Name", go "\"NAME\"", []⟩] :=
  ⟨rfl, by decide, by decide, by decide, rfl, by decide, by decide⟩

/-! ## C10: removing `ON UPDATE` -/

theorem removeScan_length_le (old : GoString) (k : Nat) (s : GoString) :
    (removeScan old k s).length ≤ s.length := by
  induction s generalizing k with
  | nil => cases k <;> simp [removeScan]
  | cons c rest ih =>
    cases k with
    | succ k =>
      have := ih k
      simp only [removeScan, List.length_cons]; omega
    | zero =>
      unfold removeScan
      split
      · have := ih (old.length - 1)
        simp only [List.length_cons]; omega
      · have := ih 0
        simp only [List.length_cons]; omega

/-- A text without an occurrence of `old` comes out of the scan as it went in. -/
theorem removeScan_of_not_infix (old s : GoString) (h : ¬ old <:+: s) :
    removeScan old 0 s = s := by
  induction s with
  | nil => rfl
  | cons c rest ih =>
    have hp : old.isPrefixOf (c :: rest) = false := by
      cases hb : old.isPrefixOf (c :: rest) with
      | false => rfl
      | true => exact absurd (List.isPrefixOf_iff_prefix.mp hb).isInfix h
    have hr : ¬ old <:+: rest := fun hi => h (List.infix_cons hi)
    unfold removeScan
    rw [hp, ih hr]
    simp

/-- A text with an occurrence of `old` comes out of the scan shorter. -/
theorem removeScan_of_infix (old s : GoString) (h : old <:+: s) (hne : old ≠ []) :
    (removeScan old 0 s).length < s.length := by
  induction s with
  | nil =>
    have : old = [] := List.eq_nil_of_infix_nil h
    exact absurd this hne
  | cons c rest ih =>
    unfold removeScan
    cases hb : old.isPrefixOf (c :: rest) with
    | true =>
      have := removeScan_length_le old (old.length - 1) rest
      simp only [if_true, List.length_cons]; omega
    | false =>
      have hi : old <:+: rest := by
        rcases List.infix_cons_iff.mp h with hpre | hin
        · have := List.isPrefixOf_iff_prefix.mpr hpre
          rw [hb] at this
          exact absurd this (by simp)
        · exact hin
      have := ih hi
      simp only [Bool.false_eq_true, if_false, List.length_cons]; omega

theorem onUpdateFragment_ne_nil (a : GoString) : onUpdateFragment a ≠ [] := by
  have h : go "ON UPDATE " = 79 :: (go "N UPDATE ") := by decide
  unfold onUpdateFragment
  rw [h]
  simp

theorem removeAll_fragment_length_le (t a : GoString) :
    (removeAll t (onUpdateFragment a)).length ≤ t.length := by
  unfold removeAll
  rw [if_neg (onUpdateFragment_ne_nil a)]
  exact removeScan_length_le _ _ _

theorem removeAll_fragment_eq_iff (t a : GoString) :
    removeAll t (onUpdateFragment a) = t ↔ ¬ onUpdateFragment a <:+: t := by
  unfold removeAll
  rw [if_neg (onUpdateFragment_ne_nil a)]
  constructor
  · intro heq hin
    have := removeScan_of_infix _ _ hin (onUpdateFragment_ne_nil a)
    rw [heq] at this
    omega
  · exact removeScan_of_not_infix _ _

theorem removeOnUpdate_of_not_infix (B : Backend σ V) (rel : Relationship)
    (h : ∀ c, B.ParseConstraint rel = some c →
      ¬ onUpdateFragment c.OnUpdate <:+: rel.Field.CONSTRAINT) :
    removeOnUpdate B rel = rel := by
  unfold removeOnUpdate
  cases hc : B.ParseConstraint rel with
  | none => rfl
  | some c =>
    simp only
    rw [(removeAll_fragment_eq_iff _ _).mpr (h c hc)]

/-- C10, as the claim states it, fails: the tag `OnUpdate:X,ON UPON UPDATE XDATE X` has one
occurrence of `ON UPDATE X`; removing it joins the text around it into `ON UPDATE X`, so the
text stored after `TryRemoveOnUpdate` holds the fragment, and a second run changes it again. -/
theorem TryRemoveOnUpdate_counterexample :
    nested.ParseConstraint nestedRel = some ⟨go "fk", go "X", []⟩ ∧
    (removeOnUpdateSchema nested { demoSchema with Relations := [nestedRel] }).Relations
      = [{ nestedRel with Field := { nestedRel.Field with
            CONSTRAINT := go "OnUpdate:X,ON UPDATE X" } }] ∧
    onUpdateFragment (go "X") <:+: go "OnUpdate:X,ON UPDATE X" ∧
    removeOnUpdateSchema nested
        (removeOnUpdateSchema nested { demoSchema with Relations := [nestedRel] })
      ≠ removeOnUpdateSchema nested { demoSchema with Relations := [nestedRel] } := by
  refine ⟨by decide, by decide, ?_, by decide⟩
  exact ⟨go "OnUpdate:X,", [], by decide⟩

/-- C10, amended: when the model resolves, `TryRemoveOnUpdate` leaves the relationships in
number and order; a relationship whose parsed constraint is nil is unchanged; for one whose
parsed constraint has the on-update action `a`, the stored text becomes
`strings.ReplaceAll(t, "ON UPDATE " + a, "")`, which is never longer than `t`, is `t` itself
exactly when `t` has no occurrence of the fragment, and leaves the rest of the relationship as
it was; and a second run changes nothing when no relationship is left with an occurrence of
the fragment of its parsed action. -/
theorem TryRemoveOnUpdate_removes (B : Backend σ V) (value : V) (stmt : Statement)
    (h : B.parse value = .ok stmt) :
    ∃ schema, TryRemoveOnUpdate B value = .ok schema ∧
      schema.DBNames = stmt.Schema.DBNames ∧ schema.Fields = stmt.Schema.Fields ∧
      schema.Relations.length = stmt.Schema.Relations.length ∧
      (∀ (i : Nat) (rel : Relationship), stmt.Schema.Relations[i]? = some rel →
        ∃ rel', schema.Relations[i]? = some rel' ∧
          (B.ParseConstraint rel = none → rel' = rel) ∧
          (∀ c, B.ParseConstraint rel = some c →
            rel'.Field.CONSTRAINT
              = removeAll rel.Field.CONSTRAINT (onUpdateFragment c.OnUpdate) ∧
            rel'.Field.CONSTRAINT.length ≤ rel.Field.CONSTRAINT.length ∧
            (rel'.Field.CONSTRAINT = rel.Field.CONSTRAINT ↔
              ¬ onUpdateFragment c.OnUpdate <:+: rel.Field.CONSTRAINT) ∧
            rel'.Name = rel.Name ∧ rel'.Field.Name = rel.Field.Name ∧
            rel'.Field.DBName = rel.Field.DBName)) ∧
      ((∀ rel' ∈ schema.Relations, ∀ c, B.ParseConstraint rel' = some c →
          ¬ onUpdateFragment c.OnUpdate <:+: rel'.Field.CONSTRAINT) →
        removeOnUpdateSchema B schema = schema) := by
  refine ⟨removeOnUpdateSchema B stmt.Schema, by simp [TryRemoveOnUpdate, h], rfl, rfl, ?_, ?_, ?_⟩
  · simp [removeOnUpdateSchema]
  · intro i rel hrel
    refine ⟨removeOnUpdate B rel, by simp [removeOnUpdateSchema, hrel], ?_, ?_⟩
    · intro hc
      simp [removeOnUpdate, hc]
    · intro c hc
      have hval : (removeOnUpdate B rel).Field.CONSTRAINT
          = removeAll rel.Field.CONSTRAINT (onUpdateFragment c.OnUpdate) := by
        simp [removeOnUpdate, hc]
      refine ⟨hval, ?_, ?_, ?_, ?_, ?_⟩
      · rw [hval]; exact removeAll_fragment_length_le _ _
      · rw [hval]; exact removeAll_fragment_eq_iff _ _
      · simp [removeOnUpdate, hc]
      · simp [removeOnUpdate, hc]
      · simp [removeOnUpdate, hc]
  · intro hall
    have hmap : (removeOnUpdateSchema B stmt.Schema).Relations.map (removeOnUpdate B)
        = (removeOnUpdateSchema B stmt.Schema).Relations := by
      conv_rhs => rw [← List.map_id (removeOnUpdateSchema B stmt.Schema).Relations]
      apply List.map_congr_left
      intro rel' hmem
      exact removeOnUpdate_of_not_infix B rel' (hall rel' hmem)
    show ({ removeOnUpdateSchema B stmt.Schema with
      Relations := (removeOnUpdateSchema B stmt.Schema).Relations.map (removeOnUpdate B) } : Schema)
        = removeOnUpdateSchema B stmt.Schema
    rw [hmap]

/-- C10 at a relationship whose tag holds `ON UPDATE X` once: the fragment is removed, and a
second run changes nothing. -/
theorem TryRemoveOnUpdate_removes_witness :
    ∃ schema, TryRemoveOnUpdate plain (go "T") = .ok schema ∧
      schema.Relations = [{ plainRel with Field := { plainRel.Field with
          CONSTRAINT := go " ON DELETE CASCADE" } }] ∧
      removeOnUpdateSchema plain schema = schema := by
  obtain ⟨schema, h1, -, -, -, -, h6⟩ :=
    TryRemoveOnUpdate_removes plain (go "T")
      ⟨go "T", { demoSchema with Relations := [plainRel] }⟩ rfl
  have hs : schema = removeOnUpdateSchema plain { demoSchema with Relations := [plainRel] } := by
    have h2 : TryRemoveOnUpdate plain (go "T")
        = .ok (removeOnUpdateSchema plain { demoSchema with Relations := [plainRel] }) := rfl
    rw [h2] at h1
    exact (Except.ok.inj h1).symm
  subst hs
  refine ⟨_, h1, by decide, h6 ?_⟩
  have hrel : (removeOnUpdateSchema plain { demoSchema with Relations := [plainRel] }).Relations
      = [{ plainRel with Field := { plainRel.Field with
          CONSTRAINT := go " ON DELETE CASCADE" } }] := by decide
  intro rel' hmem c hc
  rw [hrel, List.mem_singleton] at hmem
  subst hmem
  have hc' : c = ⟨go "fk", go "X", []⟩ := by
    have : plain.ParseConstraint { plainRel with Field := { plainRel.Field with
          CONSTRAINT := go " ON DELETE CASCADE" } } = some ⟨go "fk", go "X", []⟩ := rfl
    rw [this] at hc
    exact (Option.some.inj hc).symm
  subst hc'
  decide

/-! ## Lemmas on `DropTable` -/

theorem execs_append (l₁ l₂ : List Issued) : execs (l₁ ++ l₂) = execs l₁ ++ execs l₂ := by
  induction l₁ with
  | nil => rfl
  | cons a rest ih => cases a <;> simp [execs, ih]

theorem HasTable_eq (B : Backend σ V) (s : σ) (value : V) :
    (HasTable B s value).1 =
      match B.parse value with
      | .ok stmt => tableExists B s stmt.Table
      | .error _ => false := by
  unfold HasTable tableExists
  cases hp : B.parse value with
  | error e => simp
  | ok stmt => cases hq : B.scanCount s (hasTableSQL stmt.Table) <;> simp [scanInto, hq]

theorem execs_HasTable (B : Backend σ V) (s : σ) (value : V) :
    execs (HasTable B s value).2 = [] := by
  unfold HasTable
  cases hp : B.parse value <;> simp [execs]

/-- What one turn of the loop does when `HasTable` reports `false`. -/
theorem dropOne_absent (B : Backend σ V) (s : σ) (value : V)
    (h : (HasTable B s value).1 = false) :
    dropOne B s value = (⟨s, (HasTable B s value).2, none⟩, true) := by
  simp [dropOne, h]

/-- What one turn of the loop does when `HasTable` reports `true`. -/
theorem dropOne_present (B : Backend σ V) (s : σ) (value : V)
    (h : (HasTable B s value).1 = true) :
    ∃ stmt, B.parse value = .ok stmt ∧ tableExists B s stmt.Table = true ∧
      (dropOne B s value).1.state = (B.exec s (dropTableSQL stmt.Table)).1 ∧
      execs (dropOne B s value).1.log = [dropTableSQL stmt.Table] ∧
      (dropOne B s value).1.err = (B.exec s (dropTableSQL stmt.Table)).2 ∧
      (dropOne B s value).2 = (B.exec s (dropTableSQL stmt.Table)).2.isNone := by
  have he := HasTable_eq B s value
  rw [h] at he
  cases hp : B.parse value with
  | error e => rw [hp] at he; simp at he
  | ok stmt =>
    rw [hp] at he
    refine ⟨stmt, rfl, he.symm, ?_⟩
    unfold dropOne
    simp only [h, if_true, hp]
    cases hx : (B.exec s (dropTableSQL stmt.Table)).2 <;>
      simp [execs_append, execs_HasTable, execs]

/-- The index loop of `DropTable` visits the first `n` values last to first. -/
theorem dropLoop_eq_dropInOrder (B : Backend σ V) (values : List V) (n : Nat) (s : σ)
    (hn : n ≤ values.length) :
    dropLoop B values n s = dropInOrder B (values.take n).reverse s := by
  induction n generalizing s with
  | zero => simp [dropLoop, dropInOrder]
  | succ i ih =>
    have hi : i < values.length := hn
    have hget : values[i]? = some values[i] := List.getElem?_eq_getElem hi
    have htake : (values.take (i + 1)).reverse = values[i] :: (values.take i).reverse := by
      rw [List.take_succ, hget]; simp
    rw [htake]
    unfold dropLoop dropInOrder
    simp only [hget]
    rw [ih _ (Nat.le_of_lt hi)]

theorem DropTable_eq_dropInOrder (B : Backend σ V) (s : σ) (values : List V) :
    DropTable B s values = dropInOrder B (B.ReorderModels values false).reverse s := by
  unfold DropTable
  simp only
  rw [dropLoop_eq_dropInOrder B _ _ s (Nat.le_refl _), List.take_length]

theorem execs_dropOne_sublist (B : Backend σ V) (s : σ) (value : V) :
    (execs (dropOne B s value).1.log).Sublist (dropOf B value).toList := by
  cases h : (HasTable B s value).1 with
  | false =>
    rw [dropOne_absent B s value h]
    simp [execs_HasTable]
  | true =>
    obtain ⟨stmt, hp, -, -, hl, -, -⟩ := dropOne_present B s value h
    rw [hl]
    simp [dropOf, hp]

theorem dropInOrder_cons_continue (B : Backend σ V) (v : V) (rest : List V) (s : σ)
    (h : (dropOne B s v).2 = true) :
    dropInOrder B (v :: rest) s =
      ⟨(dropInOrder B rest (dropOne B s v).1.state).state,
        (dropOne B s v).1.log ++ (dropInOrder B rest (dropOne B s v).1.state).log,
        (dropInOrder B rest (dropOne B s v).1.state).err⟩ := by
  rw [dropInOrder]
  simp only [h, if_true]

theorem dropInOrder_cons_stop (B : Backend σ V) (v : V) (rest : List V) (s : σ)
    (h : (dropOne B s v).2 = false) :
    dropInOrder B (v :: rest) s = (dropOne B s v).1 := by
  rw [dropInOrder]
  simp only [h, Bool.false_eq_true, if_false]

theorem execs_dropInOrder_sublist (B : Backend σ V) (vs : List V) (s : σ) :
    (execs (dropInOrder B vs s).log).Sublist (vs.filterMap (dropOf B)) := by
  induction vs generalizing s with
  | nil => simp [dropInOrder, execs]
  | cons v rest ih =>
    have h1 := execs_dropOne_sublist B s v
    have hfm : (v :: rest).filterMap (dropOf B)
        = (dropOf B v).toList ++ rest.filterMap (dropOf B) := by
      cases hd : dropOf B v <;> simp [List.filterMap_cons, hd]
    rw [hfm]
    cases hc : (dropOne B s v).2 with
    | true =>
      rw [dropInOrder_cons_continue B v rest s hc, execs_append]
      exact List.Sublist.append h1 (ih _)
    | false =>
      rw [dropInOrder_cons_stop B v rest s hc]
      exact h1.trans (List.sublist_append_left _ _)

/-- When a `DROP TABLE` never makes a table appear, a table that `HasTable` reports absent stays
absent over one turn of the loop. -/
theorem HasTable_dropOne_mono (B : Backend σ V)
    (hmono : ∀ s t t', tableExists B s t' = false →
      tableExists B (B.exec s (dropTableSQL t)).1 t' = false)
    (s : σ) (w v : V) (h : (HasTable B s v).1 = false) :
    (HasTable B (dropOne B s w).1.state v).1 = false := by
  rw [HasTable_eq] at h ⊢
  cases hp : B.parse v with
  | error e => rfl
  | ok stmt =>
    rw [hp] at h
    simp only at h ⊢
    cases hw : (HasTable B s w).1 with
    | false => rw [dropOne_absent B s w hw]; exact h
    | true =>
      obtain ⟨stmt', -, -, hst, -, -, -⟩ := dropOne_present B s w hw
      rw [hst]
      exact hmono _ _ _ h

theorem HasTable_dropInOrder_mono (B : Backend σ V)
    (hmono : ∀ s t t', tableExists B s t' = false →
      tableExists B (B.exec s (dropTableSQL t)).1 t' = false)
    (vs : List V) (s : σ) (v : V) (h : (HasTable B s v).1 = false) :
    (HasTable B (dropInOrder B vs s).state v).1 = false := by
  induction vs generalizing s with
  | nil => simpa [dropInOrder] using h
  | cons w rest ih =>
    have h1 := HasTable_dropOne_mono B hmono s w v h
    cases hc : (dropOne B s w).2 with
    | true =>
      rw [dropInOrder_cons_continue B w rest s hc]
      exact ih _ h1
    | false =>
      rw [dropInOrder_cons_stop B w rest s hc]
      exact h1

/-- When every value is reported absent, the visit issues no statement, returns no error and
leaves the state. -/
theorem dropInOrder_all_absent (B : Backend σ V) (vs : List V) (s : σ)
    (h : ∀ v ∈ vs, (HasTable B s v).1 = false) :
    execs (dropInOrder B vs s).log = [] ∧ (dropInOrder B vs s).err = none ∧
      (dropInOrder B vs s).state = s := by
  induction vs with
  | nil => simp [dropInOrder, execs]
  | cons v rest ih =>
    have hv := h v (List.mem_cons_self _ _)
    have hd := dropOne_absent B s v hv
    have hc : (dropOne B s v).2 = true := by rw [hd]
    have hs : (dropOne B s v).1.state = s := by rw [hd]
    have hl : execs (dropOne B s v).1.log = [] := by rw [hd]; exact execs_HasTable B s v
    obtain ⟨i1, i2, i3⟩ := ih (fun w hw => h w (List.mem_cons_of_mem _ hw))
    rw [dropInOrder_cons_continue B v rest s hc, hs]
    exact ⟨by rw [execs_append, hl, i1]; rfl, i2, i3⟩

/-- The loop goes on after a turn exactly when the turn returned no error. -/
theorem dropOne_continue_iff (B : Backend σ V) (s : σ) (w : V) :
    (dropOne B s w).2 = true ↔ (dropOne B s w).1.err = none := by
  cases hw : (HasTable B s w).1 with
  | false => rw [dropOne_absent B s w hw]; simp
  | true =>
    obtain ⟨stmt, -, -, -, -, he, hcont⟩ := dropOne_present B s w hw
    rw [he, hcont]
    exact Option.isNone_iff_eq_none

/-- When a successful `DROP TABLE` removes the table, a value is reported absent after a turn of
the loop on it that returned no error. -/
theorem dropOne_then_absent (B : Backend σ V)
    (hrem : ∀ s t, (B.exec s (dropTableSQL t)).2 = none →
      tableExists B (B.exec s (dropTableSQL t)).1 t = false)
    (s : σ) (w : V) (herr : (dropOne B s w).1.err = none) :
    (HasTable B (dropOne B s w).1.state w).1 = false := by
  cases hw : (HasTable B s w).1 with
  | false => rw [dropOne_absent B s w hw]; exact hw
  | true =>
    obtain ⟨stmt, hp, -, hst, -, he, -⟩ := dropOne_present B s w hw
    rw [he] at herr
    rw [hst, HasTable_eq, hp]
    exact hrem _ _ herr

/-- After a visit without error, every value visited is reported absent. -/
theorem dropInOrder_then_absent (B : Backend σ V)
    (hrem : ∀ s t, (B.exec s (dropTableSQL t)).2 = none →
      tableExists B (B.exec s (dropTableSQL t)).1 t = false)
    (hmono : ∀ s t t', tableExists B s t' = false →
      tableExists B (B.exec s (dropTableSQL t)).1 t' = false)
    (vs : List V) (s : σ) (h : (dropInOrder B vs s).err = none) :
    ∀ v ∈ vs, (HasTable B (dropInOrder B vs s).state v).1 = false := by
  induction vs generalizing s with
  | nil => intro v hv; simp at hv
  | cons w rest ih =>
    cases hc : (dropOne B s w).2 with
    | true =>
      have herr := (dropOne_continue_iff B s w).mp hc
      rw [dropInOrder_cons_continue B w rest s hc] at h ⊢
      simp only at h ⊢
      intro v hv
      rcases List.mem_cons.mp hv with rfl | hv'
      · exact HasTable_dropInOrder_mono B hmono rest _ _ (dropOne_then_absent B hrem s _ herr)
      · exact ih _ h v hv'
    | false =>
      rw [dropInOrder_cons_stop B w rest s hc] at h
      have := (dropOne_continue_iff B s w).mpr h
      rw [hc] at this
      exact absurd this (by simp)

/-- A visit of one value without error leaves it reported absent. -/
theorem dropInOrder_single_then_absent (B : Backend σ V)
    (hrem : ∀ s t, (B.exec s (dropTableSQL t)).2 = none →
      tableExists B (B.exec s (dropTableSQL t)).1 t = false)
    (s : σ) (v : V) (h : (dropInOrder B [v] s).err = none) :
    (HasTable B (dropInOrder B [v] s).state v).1 = false := by
  cases hc : (dropOne B s v).2 with
  | true =>
    have herr := (dropOne_continue_iff B s v).mp hc
    rw [dropInOrder_cons_continue B v [] s hc]
    exact dropOne_then_absent B hrem s v herr
  | false =>
    rw [dropInOrder_cons_stop B v [] s hc] at h
    have := (dropOne_continue_iff B s v).mpr h
    rw [hc] at this
    exact absurd this (by simp)

/-- When a `DROP TABLE` never makes a table appear, no table that is absent at the start is
dropped. -/
theorem dropInOrder_not_dropped (B : Backend σ V)
    (hmono : ∀ s t t', tableExists B s t' = false →
      tableExists B (B.exec s (dropTableSQL t)).1 t' = false)
    (vs : List V) (s : σ) (t : GoString) (h : tableExists B s t = false) :
    dropTableSQL t ∉ execs (dropInOrder B vs s).log := by
  induction vs generalizing s with
  | nil => simp [dropInOrder, execs]
  | cons w rest ih =>
    have key : dropTableSQL t ∉ execs (dropOne B s w).1.log ∧
        tableExists B (dropOne B s w).1.state t = false := by
      cases hw : (HasTable B s w).1 with
      | false =>
        rw [dropOne_absent B s w hw]
        exact ⟨by simp [execs_HasTable], h⟩
      | true =>
        obtain ⟨stmt, -, hex, hst, hl, -, -⟩ := dropOne_present B s w hw
        rw [hl, hst]
        refine ⟨?_, hmono _ _ _ h⟩
        intro hmem
        have : t = stmt.Table := by simpa [dropTableSQL] using hmem
        rw [this, hex] at h
        exact absurd h (by simp)
    cases hc : (dropOne B s w).2 with
    | true =>
      rw [dropInOrder_cons_continue B w rest s hc]
      simp only [execs_append, List.mem_append, not_or]
      exact ⟨key.1, ih _ key.2⟩
    | false =>
      rw [dropInOrder_cons_stop B w rest s hc]
      exact key.1

/-! ## C6, C7: `DropTable` -/

theorem demo_tableExists (s : Catalog) (t : GoString) :
    tableExists demo s t = decide (t ∈ s.tables) := by
  by_cases h : t ∈ s.tables <;> simp [tableExists, demo, hasTableSQL, h]

theorem demo_drop_removes (s : Catalog) (t : GoString)
    (h : (demo.exec s (dropTableSQL t)).2 = none) :
    tableExists demo (demo.exec s (dropTableSQL t)).1 t = false := by
  rw [demo_tableExists]
  by_cases ht : t ∈ s.tables
  · simp [demo, dropTableSQL, ht]
  · simp [demo, dropTableSQL, ht] at h

theorem demo_drop_mono (s : Catalog) (t t' : GoString) (h : tableExists demo s t' = false) :
    tableExists demo (demo.exec s (dropTableSQL t)).1 t' = false := by
  rw [demo_tableExists] at h ⊢
  have h' : t' ∉ s.tables := by simpa using h
  by_cases ht : t ∈ s.tables
  · simp [demo, dropTableSQL, ht, h']
  · simp [demo, dropTableSQL, ht, h']

/-- C6: a turn of the loop of `DropTable` on a value for which `HasTable` reports `false`
issues no `DROP`, returns no error and goes on, so when `HasTable` reports `false` for every
table, `DropTable` issues no `DROP`, returns no error and leaves the database as it is; over a
database in which a successful `DROP TABLE` removes the table, a second `DropTable` of the same
table after one that returned no error issues no `DROP` and returns no error; and when, with
several tables, no `DROP TABLE` makes a table appear, no table that `HasTable` reports absent
is dropped and the second `DropTable` of the same tables issues no `DROP` and returns no
error. -/
theorem DropTable_idempotent (B : Backend σ V) (s : σ) (values : List V) :
    (∀ v, (HasTable B s v).1 = false →
      execs (dropOne B s v).1.log = [] ∧ (dropOne B s v).1.err = none ∧
        (dropOne B s v).1.state = s ∧ (dropOne B s v).2 = true) ∧
    ((∀ v ∈ B.ReorderModels values false, (HasTable B s v).1 = false) →
      execs (DropTable B s values).log = [] ∧ (DropTable B s values).err = none ∧
        (DropTable B s values).state = s) ∧
    ((∀ s t, (B.exec s (dropTableSQL t)).2 = none →
        tableExists B (B.exec s (dropTableSQL t)).1 t = false) →
      (∀ v, B.ReorderModels values false = [v] → (DropTable B s values).err = none →
        execs (DropTable B (DropTable B s values).state values).log = [] ∧
        (DropTable B (DropTable B s values).state values).err = none ∧
        (DropTable B (DropTable B s values).state values).state
          = (DropTable B s values).state) ∧
      ((∀ s t t', tableExists B s t' = false →
          tableExists B (B.exec s (dropTableSQL t)).1 t' = false) →
        (∀ v stmt, B.parse v = .ok stmt → (HasTable B s v).1 = false →
          dropTableSQL stmt.Table ∉ execs (DropTable B s values).log) ∧
        ((DropTable B s values).err = none →
          execs (DropTable B (DropTable B s values).state values).log = [] ∧
          (DropTable B (DropTable B s values).state values).err = none ∧
          (DropTable B (DropTable B s values).state values).state
            = (DropTable B s values).state))) := by
  refine ⟨fun v hv => ?_, fun h => ?_, fun hrem => ⟨fun v hone herr => ?_, fun hmono =>
    ⟨fun v stmt hp hv => ?_, fun herr => ?_⟩⟩⟩
  · rw [dropOne_absent B s v hv]
    exact ⟨execs_HasTable B s v, rfl, rfl, rfl⟩
  · rw [DropTable_eq_dropInOrder]
    exact dropInOrder_all_absent B _ s (fun v hv => h v (List.mem_reverse.mp hv))
  · rw [DropTable_eq_dropInOrder, hone] at herr
    rw [DropTable_eq_dropInOrder B (DropTable B s values).state]
    apply dropInOrder_all_absent
    rw [DropTable_eq_dropInOrder, hone]
    intro w hw
    have hwv : w = v := by simpa using hw
    subst hwv
    exact dropInOrder_single_then_absent B hrem s w herr
  · rw [DropTable_eq_dropInOrder]
    apply dropInOrder_not_dropped B hmono
    rw [HasTable_eq, hp] at hv
    exact hv
  · rw [DropTable_eq_dropInOrder] at herr
    rw [DropTable_eq_dropInOrder B (DropTable B s values).state]
    apply dropInOrder_all_absent
    rw [DropTable_eq_dropInOrder]
    exact dropInOrder_then_absent B hrem hmono _ s herr

/-- C6 at the demo backend: on the empty catalog `DropTable` of `A` does nothing; on the
catalog with `A` and `B`, after the first `DropTable` of `A`, and after the first `DropTable`
of `A` and `B`, the second one issues nothing. -/
theorem DropTable_idempotent_witness :
    (execs (DropTable demo ⟨[], []⟩ [go "A"]).log = [] ∧
      (DropTable demo ⟨[], []⟩ [go "A"]).err = none ∧
      (DropTable demo ⟨[], []⟩ [go "A"]).state = ⟨[], []⟩) ∧
    (execs (DropTable demo (DropTable demo catalogAB [go "A"]).state [go "A"]).log = [] ∧
      (DropTable demo (DropTable demo catalogAB [go "A"]).state [go "A"]).err = none ∧
      (DropTable demo (DropTable demo catalogAB [go "A"]).state [go "A"]).state
        = (DropTable demo catalogAB [go "A"]).state) ∧
    (execs (DropTable demo (DropTable demo catalogAB [go "A", go "B"]).state
        [go "A", go "B"]).log = [] ∧
      (DropTable demo (DropTable demo catalogAB [go "A", go "B"]).state
        [go "A", go "B"]).err = none ∧
      (DropTable demo (DropTable demo catalogAB [go "A", go "B"]).state
        [go "A", go "B"]).state = (DropTable demo catalogAB [go "A", go "B"]).state) :=
  ⟨(DropTable_idempotent demo ⟨[], []⟩ [go "A"]).2.1 (by decide),
    ((DropTable_idempotent demo catalogAB [go "A"]).2.2 demo_drop_removes).1
      (go "A") (by decide) (by decide),
    (((DropTable_idempotent demo catalogAB [go "A", go "B"]).2.2 demo_drop_removes).2
      demo_drop_mono).2 (by decide)⟩

/-- When a `DROP TABLE` leaves every other table as it was, the values resolve to different
tables and no statement fails, the statements issued are the drops of exactly the values that
`HasTable` reports present at the start, in the order visited. -/
theorem execs_dropInOrder_exact (B : Backend σ V)
    (hframe : ∀ s t t', t' ≠ t →
      tableExists B (B.exec s (dropTableSQL t)).1 t' = tableExists B s t')
    (vs : List V) (s : σ) (hnd : (vs.filterMap (dropOf B)).Nodup)
    (herr : (dropInOrder B vs s).err = none) :
    execs (dropInOrder B vs s).log
      = (vs.filter (fun v => (HasTable B s v).1)).filterMap (dropOf B) := by
  induction vs generalizing s with
  | nil => simp [dropInOrder, execs]
  | cons w rest ih =>
    have hfm : (w :: rest).filterMap (dropOf B)
        = (dropOf B w).toList ++ rest.filterMap (dropOf B) := by
      cases hd : dropOf B w <;> simp [List.filterMap_cons, hd]
    rw [hfm] at hnd
    have hnd' : (rest.filterMap (dropOf B)).Nodup := hnd.of_append_right
    have hc : (dropOne B s w).2 = true := by
      cases hc : (dropOne B s w).2 with
      | true => rfl
      | false =>
        rw [dropInOrder_cons_stop B w rest s hc] at herr
        have := (dropOne_continue_iff B s w).mpr herr
        rw [hc] at this
        exact absurd this (by simp)
    rw [dropInOrder_cons_continue B w rest s hc] at herr ⊢
    simp only at herr ⊢
    rw [execs_append]
    cases hw : (HasTable B s w).1 with
    | false =>
      have hd := dropOne_absent B s w hw
      have hs : (dropOne B s w).1.state = s := by rw [hd]
      have hl : execs (dropOne B s w).1.log = [] := by rw [hd]; exact execs_HasTable B s w
      rw [hs] at herr
      rw [hs, hl, ih s hnd' herr, List.filter_cons_of_neg (by simp [hw])]
      rfl
    | true =>
      obtain ⟨stmt, hp, -, hst, hl, -, -⟩ := dropOne_present B s w hw
      have hdw : dropOf B w = some (dropTableSQL stmt.Table) := by simp [dropOf, hp]
      rw [hdw] at hnd
      have hnot : dropTableSQL stmt.Table ∉ rest.filterMap (dropOf B) := by
        have hcons : (dropTableSQL stmt.Table :: rest.filterMap (dropOf B)).Nodup := hnd
        exact (List.nodup_cons.mp hcons).1
      have hsame : ∀ v ∈ rest, (HasTable B (dropOne B s w).1.state v).1 = (HasTable B s v).1 := by
        intro v hv
        rw [HasTable_eq, HasTable_eq, hst]
        cases hpv : B.parse v with
        | error e => rfl
        | ok sv =>
          simp only
          apply hframe
          intro heq
          apply hnot
          apply List.mem_filterMap.mpr
          exact ⟨v, hv, by simp [dropOf, hpv, heq]⟩
      have hfilter : rest.filter (fun v => (HasTable B (dropOne B s w).1.state v).1)
          = rest.filter (fun v => (HasTable B s v).1) :=
        List.filter_congr hsame
      rw [hl, ih _ hnd' herr, hfilter, List.filter_cons_of_pos (by simp [hw]),
        List.filterMap_cons_some hdw]
      rfl

theorem demo_drop_frame (s : Catalog) (t t' : GoString) (h : t' ≠ t) :
    tableExists demo (demo.exec s (dropTableSQL t)).1 t' = tableExists demo s t' := by
  rw [demo_tableExists, demo_tableExists]
  by_cases ht : t ∈ s.tables
  · simp [demo, dropTableSQL, ht, h]
  · simp [demo, dropTableSQL, ht]

theorem inputOrder_drop_frame (s : Catalog) (t t' : GoString) (h : t' ≠ t) :
    tableExists inputOrder (inputOrder.exec s (dropTableSQL t)).1 t'
      = tableExists inputOrder s t' :=
  demo_drop_frame s t t' h

/-- C7, as the claim states it, fails in its second half: with a reordering that returns the
values in the order given, which is what gorm's `ReorderModels` does with table names passed
as strings, `DropTable([B, A])` on the catalog with both tables drops `A` and then `B`, so the
drop of `B` is not the first of the two. -/
theorem DropTable_input_order_counterexample :
    inputOrder.ReorderModels [go "B", go "A"] false = [go "B", go "A"] ∧
    execs (DropTable inputOrder catalogAB [go "B", go "A"]).log
      = [dropTableSQL (go "A"), dropTableSQL (go "B")] ∧
    ¬ (execs (DropTable inputOrder catalogAB [go "B", go "A"]).log).Sublist
      [dropTableSQL (go "B"), dropTableSQL (go "A")] := by
  decide

/-- C7, amended: `DropTable` visits the values in the reverse of the order
`ReorderModels(values, false)` returns, drops each one that `HasTable` reports present, and
stops at the first statement that fails; the statements it issues are, in order, among the
`DROP TABLE ? CASCADE CONSTRAINTS` statements of that reversed list, and they are exactly the
ones of the tables present at the start when the tables differ, a drop leaves the other tables
as they were and no statement fails; so the drop of `B` comes no later than the drop of `A`
when the reordering returns `[A, B]`, and the drop of `A` comes no later than the drop of `B`
when it returns `[B, A]`. -/
theorem DropTable_order (B : Backend σ V) (s : σ) (values : List V) :
    DropTable B s values = dropInOrder B (B.ReorderModels values false).reverse s ∧
    (execs (DropTable B s values).log).Sublist
      ((B.ReorderModels values false).reverse.filterMap (dropOf B)) ∧
    ((∀ s t t', t' ≠ t →
        tableExists B (B.exec s (dropTableSQL t)).1 t' = tableExists B s t') →
      ((B.ReorderModels values false).filterMap (dropOf B)).Nodup →
      (DropTable B s values).err = none →
      execs (DropTable B s values).log
        = ((B.ReorderModels values false).reverse.filter
            (fun v => (HasTable B s v).1)).filterMap (dropOf B)) ∧
    (∀ (a b : V) (sa sb : Statement), B.parse a = .ok sa → B.parse b = .ok sb →
      (B.ReorderModels values false = [a, b] →
        (execs (DropTable B s values).log).Sublist
          [dropTableSQL sb.Table, dropTableSQL sa.Table]) ∧
      (B.ReorderModels values false = [b, a] →
        (execs (DropTable B s values).log).Sublist
          [dropTableSQL sa.Table, dropTableSQL sb.Table])) := by
  have hsub : (execs (DropTable B s values).log).Sublist
      ((B.ReorderModels values false).reverse.filterMap (dropOf B)) := by
    rw [DropTable_eq_dropInOrder]
    exact execs_dropInOrder_sublist B _ s
  refine ⟨DropTable_eq_dropInOrder B s values, hsub, ?_, ?_⟩
  · intro hframe hnd herr
    rw [DropTable_eq_dropInOrder] at herr ⊢
    apply execs_dropInOrder_exact B hframe _ s _ herr
    rw [List.filterMap_reverse]
    exact List.nodup_reverse.mpr hnd
  · intro a b sa sb ha hb
    constructor
    · intro hab
      rw [hab] at hsub
      simpa [dropOf, ha, hb] using hsub
    · intro hba
      rw [hba] at hsub
      simpa [dropOf, ha, hb] using hsub

/-- C7 at the demo backend, whose reordering places `A` before `B`: on the catalog with both
tables, `B` is dropped and then `A`, for both input orders; and at the backend whose
reordering keeps the order given, `DropTable([B, A])` drops `A` and then `B`. -/
theorem DropTable_order_witness :
    execs (DropTable demo catalogAB [go "A", go "B"]).log
      = [dropTableSQL (go "B"), dropTableSQL (go "A")] ∧
    execs (DropTable demo catalogAB [go "B", go "A"]).log
      = [dropTableSQL (go "B"), dropTableSQL (go "A")] ∧
    (execs (DropTable demo catalogAB [go "B", go "A"]).log).Sublist
      [dropTableSQL (go "B"), dropTableSQL (go "A")] ∧
    (execs (DropTable inputOrder catalogAB [go "B", go "A"]).log).Sublist
      [dropTableSQL (go "A"), dropTableSQL (go "B")] ∧
    execs (DropTable inputOrder catalogAB [go "B", go "A"]).log
      = [dropTableSQL (go "A"), dropTableSQL (go "B")] :=
  ⟨(DropTable_order demo catalogAB [go "A", go "B"]).2.2.1 demo_drop_frame
      (by decide) (by decide),
    (DropTable_order demo catalogAB [go "B", go "A"]).2.2.1 demo_drop_frame
      (by decide) (by decide),
    ((DropTable_order demo catalogAB [go "B", go "A"]).2.2.2 (go "A") (go "B")
      ⟨go "A", demoSchema⟩ ⟨go "B", demoSchema⟩ rfl rfl).1 (by decide),
    ((DropTable_order inputOrder catalogAB [go "B", go "A"]).2.2.2 (go "A") (go "B")
      ⟨go "A", demoSchema⟩ ⟨go "B", demoSchema⟩ rfl rfl).2 (by decide),
    (DropTable_order inputOrder catalogAB [go "B", go "A"]).2.2.1 inputOrder_drop_frame
      (by decide) (by decide)⟩

end Oracle
